import Mathlib

/-!
Verification of the query-translation and CRUD layer of a typed
Firestore repository (`FirestoreRepo` / `FirestoreRepoFactory`).

The embedding models:
* the declarative `FetchOptions` object (filters, sorts, limit,
  pagination cursors) and its translation `applyOptions` into a chain of
  query-builder calls (`filter-specification.ts`, `FirestoreRepo`);
* the Firestore query builder symbolically, as a base collection
  reference plus the ordered list of builder clauses chained onto it;
* the CRUD operations (`add`, `update`, `delete`, `exists`) over an
  abstract document-database client, together with a concrete store
  model of that client for end-to-end facts.

TypeScript `Query | null` values become `Option Query`; the JS
expression `query || ref` becomes `orRef`; JS truthiness of an optional
array (`options.filters && options.filters.length`) is a match plus a
length test, and truthiness of an optional number (`options.limit`) is
a match plus a nonzero test.
-/

/-- A scalar Firestore field value: null, boolean, number (modelled as
an integer) or string. -/
inductive Scalar where
  | sNull
  | sBool (b : Bool)
  | sNum (n : Int)
  | sStr (s : String)
deriving Repr, DecidableEq

/-- Firestore field values, as far as this layer observes them: a
scalar or an array of scalars (Firestore arrays cannot nest). -/
inductive Value where
  | vNull
  | vBool (b : Bool)
  | vNum (n : Int)
  | vStr (s : String)
  | vArr (elems : List Scalar)
deriving Repr, DecidableEq

/-- The fixed operator enumeration of a `FilterSpecification`
(`'<' | '<=' | '==' | '>' | '>=' | '!=' | 'array-contains' |
'array-contains-any' | 'in' | 'not-in'`). -/
inductive FilterOp where
  | lt
  | le
  | eq
  | gt
  | ge
  | ne
  | arrayContains
  | arrayContainsAny
  | opIn
  | opNotIn
deriving Repr, DecidableEq

/-- Sort direction `'asc' | 'desc'` of a `SortSpecification`. -/
inductive SortDirection where
  | asc
  | desc
deriving Repr, DecidableEq

/-- `FilterSpecification`: `{fieldName, operator, value}`. -/
structure FilterSpecification where
  fieldName : String
  operator : FilterOp
  value : Value
deriving Repr, DecidableEq

/-- `SortSpecification`: `{fieldName, direction}`. -/
structure SortSpecification where
  fieldName : String
  direction : SortDirection
deriving Repr, DecidableEq

/-- `FetchOptions`: every field is optional, mirroring the TypeScript
interface (`endAt?`, `endBefore?`, `filters?`, `limit?`, `sorts?`,
`startAfter?`, `startAt?`). -/
structure FetchOptions where
  endAt : Option Value := none
  endBefore : Option Value := none
  filters : Option (List FilterSpecification) := none
  limit : Option Int := none
  sorts : Option (List SortSpecification) := none
  startAfter : Option Value := none
  startAt : Option Value := none
deriving Repr, DecidableEq

/-- A base collection reference (`CollectionReference<DocumentData>`),
identified by its collection path. -/
structure CollectionReference where
  path : String
deriving Repr, DecidableEq

/-- One chained Firestore query-builder call, recorded symbolically. -/
inductive QueryClause where
  | whereC (fieldName : String) (op : FilterOp) (value : Value)
  | orderByC (fieldName : String) (direction : SortDirection)
  | startAtC (value : Value)
  | startAfterC (value : Value)
  | endAtC (value : Value)
  | endBeforeC (value : Value)
  | limitC (n : Int)
deriving Repr, DecidableEq

/-- A built query: the base collection path plus the clauses chained
onto the reference, in the order the builder calls were made. -/
structure Query where
  path : String
  clauses : List QueryClause
deriving Repr, DecidableEq

/-- A collection reference viewed as the query with no clauses. -/
def CollectionReference.toQuery (ref : CollectionReference) : Query :=
  ⟨ref.path, []⟩

/-- Builder call `.where(fieldName, operator, value)`. -/
def Query.whereBy (q : Query) (fieldName : String) (op : FilterOp) (value : Value) : Query :=
  ⟨q.path, q.clauses ++ [QueryClause.whereC fieldName op value]⟩

/-- Builder call `.orderBy(fieldName, direction)`. -/
def Query.orderBy (q : Query) (fieldName : String) (direction : SortDirection) : Query :=
  ⟨q.path, q.clauses ++ [QueryClause.orderByC fieldName direction]⟩

/-- Builder call `.startAt(value)`. -/
def Query.startAt (q : Query) (value : Value) : Query :=
  ⟨q.path, q.clauses ++ [QueryClause.startAtC value]⟩

/-- Builder call `.startAfter(value)`. -/
def Query.startAfter (q : Query) (value : Value) : Query :=
  ⟨q.path, q.clauses ++ [QueryClause.startAfterC value]⟩

/-- Builder call `.endAt(value)`. -/
def Query.endAt (q : Query) (value : Value) : Query :=
  ⟨q.path, q.clauses ++ [QueryClause.endAtC value]⟩

/-- Builder call `.endBefore(value)`. -/
def Query.endBefore (q : Query) (value : Value) : Query :=
  ⟨q.path, q.clauses ++ [QueryClause.endBeforeC value]⟩

/-- Builder call `.limit(n)`. -/
def Query.limitBy (q : Query) (n : Int) : Query :=
  ⟨q.path, q.clauses ++ [QueryClause.limitC n]⟩

/-- The JS expression `query || ref`: the accumulated query when one
exists, else the base collection reference as a query. -/
def orRef (query : Option Query) (ref : CollectionReference) : Query :=
  query.getD ref.toQuery

/-- `FirestoreRepo.applyFilters`: when `options.filters` is present and
nonempty, chain `.where` for each filter in array order, starting from
the base reference if no query exists yet. -/
def applyFilters (options : FetchOptions) (query : Option Query)
    (ref : CollectionReference) : Option Query :=
  match options.filters with
  | some filters =>
      if filters.length ≠ 0 then
        filters.foldl
          (fun query filter =>
            some ((orRef query ref).whereBy filter.fieldName filter.operator filter.value))
          query
      else query
  | none => query

/-- `FirestoreRepo.applySorts`: when `options.sorts` is present and
nonempty, chain `.orderBy` for each sort in array order, then attach
each defined pagination cursor in the fixed sequence `startAt`,
`startAfter`, `endAt`, `endBefore`. When sorts are absent or empty the
incoming query is returned untouched and no cursor is attached. -/
def applySorts (options : FetchOptions) (query : Option Query)
    (ref : CollectionReference) : Option Query :=
  match options.sorts with
  | some sorts =>
      if sorts.length ≠ 0 then
        let query := sorts.foldl
          (fun query sort => some ((orRef query ref).orderBy sort.fieldName sort.direction))
          query
        let query := match options.startAt with
          | some v => query.map (Query.startAt · v)
          | none => query
        let query := match options.startAfter with
          | some v => query.map (Query.startAfter · v)
          | none => query
        let query := match options.endAt with
          | some v => query.map (Query.endAt · v)
          | none => query
        let query := match options.endBefore with
          | some v => query.map (Query.endBefore · v)
          | none => query
        query
      else query
  | none => query

/-- `FirestoreRepo.applyLimit`: when `options.limit` is truthy (defined
and nonzero), chain `.limit(options.limit)`. -/
def applyLimit (options : FetchOptions) (query : Option Query)
    (ref : CollectionReference) : Option Query :=
  match options.limit with
  | some n => if n ≠ 0 then some ((orRef query ref).limitBy n) else query
  | none => query

/-- `FirestoreRepo.applyOptions`: filters, then sorts (with cursors),
then limit, starting from no query; `null` when nothing was applied. -/
def applyOptions (options : FetchOptions) (ref : CollectionReference) : Option Query :=
  let query : Option Query := none
  let query := applyFilters options query ref
  let query := applySorts options query ref
  let query := applyLimit options query ref
  query

/-- The query `FirestoreRepo.fetch` actually runs: the callback
`(ref) => { const query = this.applyOptions(options, ref); return query || ref; }`. -/
def fetchQuery (options : FetchOptions) (ref : CollectionReference) : Query :=
  (applyOptions options ref).getD ref.toQuery

/-- The query `FirestoreRepo.fetchSnapshots` actually runs; its query
callback is identical to the one of `fetch`. -/
def fetchSnapshotsQuery (options : FetchOptions) (ref : CollectionReference) : Query :=
  (applyOptions options ref).getD ref.toQuery

/-- The `.where` clause a filter specification translates to. -/
def FilterSpecification.toClause (f : FilterSpecification) : QueryClause :=
  QueryClause.whereC f.fieldName f.operator f.value

/-- The `.orderBy` clause a sort specification translates to. -/
def SortSpecification.toClause (s : SortSpecification) : QueryClause :=
  QueryClause.orderByC s.fieldName s.direction

/-- JS truthiness of `options.filters && options.filters.length`. -/
def filtersTruthy (options : FetchOptions) : Bool :=
  match options.filters with
  | some filters => !filters.isEmpty
  | none => false

/-- JS truthiness of `options.sorts && options.sorts.length`. -/
def sortsTruthy (options : FetchOptions) : Bool :=
  match options.sorts with
  | some sorts => !sorts.isEmpty
  | none => false

/-- JS truthiness of `options.limit`. -/
def limitTruthy (options : FetchOptions) : Bool :=
  match options.limit with
  | some n => n != 0
  | none => false

/-- True when any of the three stages of `applyOptions` fires. -/
def optionsTruthy (options : FetchOptions) : Bool :=
  filtersTruthy options || sortsTruthy options || limitTruthy options

/-- The `.where` clauses `applyOptions` produces. -/
def filterClauses (options : FetchOptions) : List QueryClause :=
  (options.filters.getD []).map FilterSpecification.toClause

/-- The clause an optional cursor value contributes: its clause exactly
when the value is defined, nothing otherwise. -/
def optClause (o : Option Value) (g : Value → QueryClause) : List QueryClause :=
  match o with
  | some v => [g v]
  | none => []

/-- The pagination-cursor clauses `applySorts` attaches once at least
one sort was applied: each cursor contributes its clause exactly when
its value is defined, in the fixed sequence `startAt`, `startAfter`,
`endAt`, `endBefore`. -/
def cursorClauses (options : FetchOptions) : List QueryClause :=
  optClause options.startAt QueryClause.startAtC ++
  optClause options.startAfter QueryClause.startAfterC ++
  optClause options.endAt QueryClause.endAtC ++
  optClause options.endBefore QueryClause.endBeforeC

/-- The `.orderBy` and cursor clauses `applyOptions` produces. -/
def sortClauses (options : FetchOptions) : List QueryClause :=
  match options.sorts with
  | some sorts =>
      if sorts.length ≠ 0 then
        sorts.map SortSpecification.toClause ++ cursorClauses options
      else []
  | none => []

/-- The `.limit` clause `applyOptions` produces, when the limit is
truthy. -/
def limitClauses (options : FetchOptions) : List QueryClause :=
  match options.limit with
  | some n => if n ≠ 0 then [QueryClause.limitC n] else []
  | none => []

/-- All clauses `applyOptions` chains, in order. -/
def builtClauses (options : FetchOptions) : List QueryClause :=
  filterClauses options ++ sortClauses options ++ limitClauses options

/-- Association-list lookup: the value of the first binding for `k`. -/
def alGet {α : Type} (l : List (String × α)) (k : String) : Option α :=
  match l with
  | [] => none
  | (k', v) :: rest => if k' = k then some v else alGet rest k

/-- Association-list write: overwrite the first binding for `k` in
place, or append a new binding when none exists. -/
def alSet {α : Type} (l : List (String × α)) (k : String) (v : α) : List (String × α) :=
  match l with
  | [] => [(k, v)]
  | (k', v') :: rest => if k' = k then (k, v) :: rest else (k', v') :: alSet rest k v

/-- A document's data: a finite map from field names to field values. -/
abbrev Doc := List (String × Value)

/-- A scalar viewed as a value. -/
def Value.ofScalar : Scalar → Value
  | Scalar.sNull => Value.vNull
  | Scalar.sBool b => Value.vBool b
  | Scalar.sNum n => Value.vNum n
  | Scalar.sStr s => Value.vStr s

/-- Modelled from the spec: Firestore value comparison for the range
operators of the underlying query language (the layer passes operators
through unvalidated). Values of different kinds never compare: a range
filter only matches fields of the same kind as the filter value. -/
def Value.ltb : Value → Value → Bool
  | Value.vBool a, Value.vBool b => !a && b
  | Value.vNum a, Value.vNum b => decide (a < b)
  | Value.vStr a, Value.vStr b => decide (a < b)
  | _, _ => false

/-- Modelled from the spec: the underlying store's semantics of one
filter operator, applied to a document field value (left) and the
filter's value (right). -/
def FilterOp.eval : FilterOp → Value → Value → Bool
  | FilterOp.lt, x, y => Value.ltb x y
  | FilterOp.le, x, y => Value.ltb x y || x == y
  | FilterOp.eq, x, y => x == y
  | FilterOp.gt, x, y => Value.ltb y x
  | FilterOp.ge, x, y => Value.ltb y x || x == y
  | FilterOp.ne, x, y => x != y
  | FilterOp.arrayContains, Value.vArr xs, y => xs.any (fun s => Value.ofScalar s == y)
  | FilterOp.arrayContains, _, _ => false
  | FilterOp.arrayContainsAny, Value.vArr xs, Value.vArr ys => xs.any (fun s => ys.contains s)
  | FilterOp.arrayContainsAny, _, _ => false
  | FilterOp.opIn, x, Value.vArr ys => ys.any (fun s => Value.ofScalar s == x)
  | FilterOp.opIn, _, _ => false
  | FilterOp.opNotIn, x, Value.vArr ys => !(ys.any (fun s => Value.ofScalar s == x))
  | FilterOp.opNotIn, _, _ => false

/-- Modelled from the spec: whether a document satisfies one filter
specification; a document missing the filtered field never matches. -/
def evalFilter (d : Doc) (f : FilterSpecification) : Bool :=
  match alGet d f.fieldName with
  | some v => FilterOp.eval f.operator v f.value
  | none => false

/-- Whether a document satisfies one query clause: a `.where` clause
tests the document; ordering, cursor and limit clauses never change
which documents match the predicate. -/
def clauseMatches (d : Doc) : QueryClause → Bool
  | QueryClause.whereC fieldName op value => evalFilter d ⟨fieldName, op, value⟩
  | _ => true

/-- The match predicate of a built query: the conjunction (logical AND)
of its `.where` clauses. -/
def queryMatches (q : Query) (d : Doc) : Bool :=
  q.clauses.all (clauseMatches d)

/-- Whether a clause is a pagination-cursor clause. -/
def QueryClause.isCursor : QueryClause → Bool
  | QueryClause.startAtC _ => true
  | QueryClause.startAfterC _ => true
  | QueryClause.endAtC _ => true
  | QueryClause.endBeforeC _ => true
  | _ => false

/-- Whether a clause is a `.limit` clause. -/
def QueryClause.isLimit : QueryClause → Bool
  | QueryClause.limitC _ => true
  | _ => false

/-- The error kinds the underlying client can raise; this layer never
inspects or translates them. -/
inductive ClientError where
  | permissionDenied
  | unavailable
  | notFound
  | invalidArgument
  | aborted (message : String)
deriving Repr, DecidableEq

/-- Modelled from the spec: the external document-database client
(spec section 6, out of scope of the repository's own code):
create-with-generated-id, create/replace at an explicit id, partial
update, point delete and point existence check, each acting on a client
state `σ` and each able to fail with a client error. -/
structure FirestoreClient (σ : Type) where
  collectionAdd : Doc → σ → Except ClientError (String × σ)
  docSet : String → Doc → σ → Except ClientError σ
  docUpdate : Option String → Doc → σ → Except ClientError σ
  docDelete : String → σ → Except ClientError σ
  docGetExists : String → σ → Except ClientError Bool

/-- The identifier field of an entity (`item.id`), when set to a
string. -/
def idOf (item : Doc) : Option String :=
  match alGet item "id" with
  | some (Value.vStr s) => some s
  | _ => none

/-- The returned entity `{...item, id: docRef.id}`: the input with the
resolved identifier merged over it. -/
def mergeId (item : Doc) (docId : String) : Doc :=
  alSet item "id" (Value.vStr docId)

/-- The `!id` branch of `FirestoreRepo.add`:
`docRef = await collection(path).add(item)`, then return
`{...item, id: docRef.id}`. -/
def FirestoreRepo.addAuto {σ : Type} (client : FirestoreClient σ) (item : Doc) (s : σ) :
    Except ClientError (Doc × σ) :=
  match client.collectionAdd item s with
  | Except.error e => Except.error e
  | Except.ok (docId, s') => Except.ok (mergeId item docId, s')

/-- `FirestoreRepo.add(item, id?)`: the JS guard `!id` is true when the
id argument is omitted or is the empty string, and takes the
auto-identifier path; otherwise `docRef = collection(path).doc(id).ref`
and `await docRef.set(item)`, an upsert at that identifier. -/
def FirestoreRepo.add {σ : Type} (client : FirestoreClient σ) (item : Doc) (id : Option String)
    (s : σ) : Except ClientError (Doc × σ) :=
  match id with
  | none => FirestoreRepo.addAuto client item s
  | some i =>
      if i = "" then FirestoreRepo.addAuto client item s
      else
        match client.docSet i item s with
        | Except.error e => Except.error e
        | Except.ok s' => Except.ok (mergeId item i, s')

/-- `FirestoreRepo.update(item)`: `collection(path).doc(item.id)` then
`docRef.update(item)` — a direct delegation to the client. -/
def FirestoreRepo.update {σ : Type} (client : FirestoreClient σ) (item : Doc) (s : σ) :
    Except ClientError σ :=
  client.docUpdate (idOf item) item s

/-- `FirestoreRepo.delete(id)`: `doc(id).delete()` — a direct
delegation to the client. -/
def FirestoreRepo.delete {σ : Type} (client : FirestoreClient σ) (id : String) (s : σ) :
    Except ClientError σ :=
  client.docDelete id s

/-- `FirestoreRepo.exists(id)`: one point lookup via `docRef.ref.get()`
reporting `doc.exists` — a direct delegation to the client. -/
def FirestoreRepo.existsDoc {σ : Type} (client : FirestoreClient σ) (id : String) (s : σ) :
    Except ClientError Bool :=
  client.docGetExists id s

/-- The concrete store state: document identifier to document data. -/
abbrev Store := List (String × Doc)

/-- Modelled from the spec: the client's auto-identifier creation path
generates a non-empty identifier not supplied by the caller (a counter
stands in for Firestore's random ids). -/
def genId (s : Store) : String := "auto-" ++ toString s.length

/-- Modelled from the spec: a partial update merges the supplied fields
over the stored document, field by field, leaving every stored field
not present in the patch unchanged. -/
def mergeFields (stored patch : Doc) : Doc :=
  match patch with
  | [] => stored
  | (k, v) :: rest => mergeFields (alSet stored k v) rest

/-- Modelled from the spec: a concrete document-database client over a
`Store`. Creates and replacements succeed; a partial update fails when
the identifier is absent or names no existing document (spec section
4.2); deletion of a missing document is a no-op. -/
def storeClient : FirestoreClient Store where
  collectionAdd := fun item s => Except.ok (genId s, alSet s (genId s) item)
  docSet := fun i item s => Except.ok (alSet s i item)
  docUpdate := fun oi item s =>
    match oi with
    | none => Except.error ClientError.invalidArgument
    | some i =>
        match alGet s i with
        | none => Except.error ClientError.notFound
        | some stored => Except.ok (alSet s i (mergeFields stored item))
  docDelete := fun i s => Except.ok (s.filter (fun kv => kv.1 != i))
  docGetExists := fun i s => Except.ok (alGet s i).isSome

theorem foldl_whereBy_some (filters : List FilterSpecification) (ref : CollectionReference)
    (q : Query) :
    filters.foldl
      (fun query filter =>
        some ((orRef query ref).whereBy filter.fieldName filter.operator filter.value))
      (some q)
      = some ⟨q.path, q.clauses ++ filters.map FilterSpecification.toClause⟩ := by
  induction filters generalizing q with
  | nil => simp
  | cons f rest ih =>
      have h1 : orRef (some q) ref = q := rfl
      simp only [List.foldl_cons, h1, List.map_cons]
      rw [ih]
      simp [Query.whereBy, FilterSpecification.toClause]

theorem foldl_whereBy_none (filters : List FilterSpecification) (ref : CollectionReference)
    (h : filters ≠ []) :
    filters.foldl
      (fun query filter =>
        some ((orRef query ref).whereBy filter.fieldName filter.operator filter.value))
      none
      = some ⟨ref.path, filters.map FilterSpecification.toClause⟩ := by
  cases filters with
  | nil => exact absurd rfl h
  | cons f rest =>
      have h1 : orRef none ref = ref.toQuery := rfl
      simp only [List.foldl_cons, h1, List.map_cons]
      rw [foldl_whereBy_some]
      simp [Query.whereBy, CollectionReference.toQuery, FilterSpecification.toClause]

theorem foldl_orderBy_some (sorts : List SortSpecification) (ref : CollectionReference)
    (q : Query) :
    sorts.foldl
      (fun query sort => some ((orRef query ref).orderBy sort.fieldName sort.direction))
      (some q)
      = some ⟨q.path, q.clauses ++ sorts.map SortSpecification.toClause⟩ := by
  induction sorts generalizing q with
  | nil => simp
  | cons s rest ih =>
      have h1 : orRef (some q) ref = q := rfl
      simp only [List.foldl_cons, h1, List.map_cons]
      rw [ih]
      simp [Query.orderBy, SortSpecification.toClause]

theorem foldl_orderBy_none (sorts : List SortSpecification) (ref : CollectionReference)
    (h : sorts ≠ []) :
    sorts.foldl
      (fun query sort => some ((orRef query ref).orderBy sort.fieldName sort.direction))
      none
      = some ⟨ref.path, sorts.map SortSpecification.toClause⟩ := by
  cases sorts with
  | nil => exact absurd rfl h
  | cons s rest =>
      have h1 : orRef none ref = ref.toQuery := rfl
      simp only [List.foldl_cons, h1, List.map_cons]
      rw [foldl_orderBy_some]
      simp [Query.orderBy, CollectionReference.toQuery, SortSpecification.toClause]

theorem applyFilters_eq (options : FetchOptions) (query : Option Query)
    (ref : CollectionReference) :
    applyFilters options query ref =
      if filtersTruthy options then
        some ⟨(orRef query ref).path, (orRef query ref).clauses ++ filterClauses options⟩
      else query := by
  unfold applyFilters filtersTruthy filterClauses
  cases hf : options.filters with
  | none => simp
  | some fs =>
      cases fs with
      | nil => simp
      | cons f rest =>
          cases query with
          | none =>
              simp only [foldl_whereBy_none (f :: rest) ref (by simp)]
              simp [orRef, CollectionReference.toQuery]
          | some q =>
              simp only [foldl_whereBy_some (f :: rest) ref q]
              simp [orRef]

theorem applySorts_eq (options : FetchOptions) (query : Option Query)
    (ref : CollectionReference) :
    applySorts options query ref =
      if sortsTruthy options then
        some ⟨(orRef query ref).path, (orRef query ref).clauses ++ sortClauses options⟩
      else query := by
  unfold applySorts sortsTruthy sortClauses cursorClauses optClause
  cases hs : options.sorts with
  | none => simp
  | some ss =>
      cases ss with
      | nil => simp
      | cons s rest =>
          cases query with
          | none =>
              simp only [foldl_orderBy_none (s :: rest) ref (by simp)]
              cases options.startAt <;> cases options.startAfter <;>
                cases options.endAt <;> cases options.endBefore <;>
                simp [orRef, CollectionReference.toQuery, cursorClauses,
                  Query.startAt, Query.startAfter, Query.endAt, Query.endBefore]
          | some q =>
              simp only [foldl_orderBy_some (s :: rest) ref q]
              cases options.startAt <;> cases options.startAfter <;>
                cases options.endAt <;> cases options.endBefore <;>
                simp [orRef, cursorClauses,
                  Query.startAt, Query.startAfter, Query.endAt, Query.endBefore]

theorem applyLimit_eq (options : FetchOptions) (query : Option Query)
    (ref : CollectionReference) :
    applyLimit options query ref =
      if limitTruthy options then
        some ⟨(orRef query ref).path, (orRef query ref).clauses ++ limitClauses options⟩
      else query := by
  unfold applyLimit limitTruthy limitClauses
  cases hl : options.limit with
  | none => simp
  | some n =>
      by_cases hn : n = 0
      · simp [hn]
      · simp [hn, Query.limitBy, orRef]

theorem filterClauses_of_falsy (options : FetchOptions)
    (h : filtersTruthy options = false) : filterClauses options = [] := by
  unfold filtersTruthy at h
  unfold filterClauses
  cases hf : options.filters with
  | none => simp
  | some fs =>
      rw [hf] at h
      cases fs with
      | nil => simp
      | cons f rest => simp at h

theorem sortClauses_of_falsy (options : FetchOptions)
    (h : sortsTruthy options = false) : sortClauses options = [] := by
  unfold sortsTruthy at h
  unfold sortClauses
  cases hs : options.sorts with
  | none => simp
  | some ss =>
      rw [hs] at h
      cases ss with
      | nil => simp
      | cons s rest => simp at h

theorem limitClauses_of_falsy (options : FetchOptions)
    (h : limitTruthy options = false) : limitClauses options = [] := by
  unfold limitTruthy at h
  unfold limitClauses
  cases hl : options.limit with
  | none => simp
  | some n =>
      rw [hl] at h
      simp at h
      simp [h]

theorem applyOptions_eq (options : FetchOptions) (ref : CollectionReference) :
    applyOptions options ref =
      if optionsTruthy options then some ⟨ref.path, builtClauses options⟩ else none := by
  unfold applyOptions optionsTruthy builtClauses
  dsimp only
  rw [applyFilters_eq, applySorts_eq, applyLimit_eq]
  cases hf : filtersTruthy options <;> cases hs : sortsTruthy options <;>
    cases hl : limitTruthy options <;>
    simp [orRef, CollectionReference.toQuery,
      filterClauses_of_falsy, sortClauses_of_falsy, limitClauses_of_falsy, hf, hs, hl]

theorem mem_optClause {o : Option Value} {g : Value → QueryClause} {c : QueryClause}
    (h : c ∈ optClause o g) : ∃ v, o = some v ∧ c = g v := by
  unfold optClause at h
  cases o with
  | none => simp at h
  | some v =>
      simp at h
      exact ⟨v, rfl, h⟩

theorem mem_cursorClauses {options : FetchOptions} {c : QueryClause}
    (h : c ∈ cursorClauses options) :
    (∃ v, c = QueryClause.startAtC v) ∨ (∃ v, c = QueryClause.startAfterC v) ∨
    (∃ v, c = QueryClause.endAtC v) ∨ (∃ v, c = QueryClause.endBeforeC v) := by
  unfold cursorClauses at h
  rcases List.mem_append.1 h with h' | h4
  · rcases List.mem_append.1 h' with h'' | h3
    · rcases List.mem_append.1 h'' with h1 | h2
      · exact Or.inl ⟨(mem_optClause h1).choose, (mem_optClause h1).choose_spec.2⟩
      · exact Or.inr (Or.inl ⟨(mem_optClause h2).choose, (mem_optClause h2).choose_spec.2⟩)
    · exact Or.inr (Or.inr (Or.inl ⟨(mem_optClause h3).choose, (mem_optClause h3).choose_spec.2⟩))
  · exact Or.inr (Or.inr (Or.inr ⟨(mem_optClause h4).choose, (mem_optClause h4).choose_spec.2⟩))

theorem mem_filterClauses {options : FetchOptions} {c : QueryClause}
    (h : c ∈ filterClauses options) :
    ∃ f, f ∈ options.filters.getD [] ∧ c = f.toClause := by
  unfold filterClauses at h
  rcases List.mem_map.1 h with ⟨f, hf, hc⟩
  exact ⟨f, hf, hc.symm⟩

theorem mem_sortClauses {options : FetchOptions} {c : QueryClause}
    (h : c ∈ sortClauses options) :
    (∃ s : SortSpecification, c = s.toClause) ∨ c ∈ cursorClauses options := by
  unfold sortClauses at h
  split at h
  · rename_i sorts heq
    split at h
    · rcases List.mem_append.1 h with h1 | h2
      · rcases List.mem_map.1 h1 with ⟨s, _, hc⟩
        exact Or.inl ⟨s, hc.symm⟩
      · exact Or.inr h2
    · simp at h
  · simp at h

theorem mem_limitClauses {options : FetchOptions} {c : QueryClause}
    (h : c ∈ limitClauses options) :
    ∃ n, options.limit = some n ∧ n ≠ 0 ∧ c = QueryClause.limitC n := by
  unfold limitClauses at h
  split at h
  · rename_i n heq
    split at h
    · rename_i hn
      simp at h
      exact ⟨n, heq, hn, h⟩
    · simp at h
  · simp at h

theorem alGet_alSet_self {α : Type} (l : List (String × α)) (k : String) (v : α) :
    alGet (alSet l k v) k = some v := by
  induction l with
  | nil => simp [alSet, alGet]
  | cons kv rest ih =>
      obtain ⟨k', v'⟩ := kv
      by_cases h : k' = k
      · simp [alSet, alGet, h]
      · simp [alSet, alGet, h, ih]

theorem alGet_alSet_ne {α : Type} (l : List (String × α)) (k k' : String) (v : α)
    (h : k ≠ k') : alGet (alSet l k v) k' = alGet l k' := by
  induction l with
  | nil => simp [alSet, alGet, h]
  | cons kv rest ih =>
      obtain ⟨k0, v0⟩ := kv
      by_cases h0 : k0 = k
      · subst h0
        simp [alSet, alGet, h]
      · simp [alSet, alGet, h0, ih]

theorem alGet_eq_none_iff {α : Type} (l : List (String × α)) (k : String) :
    alGet l k = none ↔ k ∉ l.map Prod.fst := by
  induction l with
  | nil => simp [alGet]
  | cons kv rest ih =>
      obtain ⟨k0, v0⟩ := kv
      by_cases h : k0 = k
      · subst h
        simp [alGet]
      · unfold alGet
        rw [if_neg h, ih]
        simp only [List.map_cons, List.mem_cons, not_or]
        constructor
        · intro hnm
          exact ⟨fun he => h he.symm, hnm⟩
        · intro hp
          exact hp.2

theorem mergeFields_get_of_not_mem (patch : Doc) (stored : Doc) (k : String)
    (h : k ∉ patch.map Prod.fst) :
    alGet (mergeFields stored patch) k = alGet stored k := by
  induction patch generalizing stored with
  | nil => rfl
  | cons kv rest ih =>
      obtain ⟨k0, v0⟩ := kv
      simp only [List.map_cons, List.mem_cons, not_or] at h
      unfold mergeFields
      rw [ih _ h.2, alGet_alSet_ne _ _ _ _ (fun he => h.1 he.symm)]

theorem mergeFields_get_of_get (patch : Doc) (stored : Doc) (k : String) (v : Value)
    (hnd : (patch.map Prod.fst).Nodup) (h : alGet patch k = some v) :
    alGet (mergeFields stored patch) k = some v := by
  induction patch generalizing stored with
  | nil => simp [alGet] at h
  | cons kv rest ih =>
      obtain ⟨k0, v0⟩ := kv
      simp only [List.map_cons, List.nodup_cons] at hnd
      by_cases h0 : k0 = k
      · subst h0
        unfold alGet at h
        simp at h
        unfold mergeFields
        rw [mergeFields_get_of_not_mem _ _ _ hnd.1, alGet_alSet_self, h]
      · unfold alGet at h
        rw [if_neg h0] at h
        unfold mergeFields
        exact ih (alSet stored k0 v0) hnd.2 h

theorem genId_ne_empty (s : Store) : genId s ≠ "" := by
  unfold genId
  intro h
  have h2 := congrArg String.data h
  rw [String.data_append] at h2
  have h3 : ("auto-" : String).data = ['a', 'u', 't', 'o', '-'] := rfl
  have h4 : ("" : String).data = [] := rfl
  rw [h3, h4] at h2
  simp at h2

theorem filterClauses_no_cursor {options : FetchOptions} {c : QueryClause}
    (h : c ∈ filterClauses options) : c.isCursor = false := by
  rcases mem_filterClauses h with ⟨f, _, hc⟩
  rw [hc]
  rfl

theorem filterClauses_no_limit {options : FetchOptions} {c : QueryClause}
    (h : c ∈ filterClauses options) : c.isLimit = false := by
  rcases mem_filterClauses h with ⟨f, _, hc⟩
  rw [hc]
  rfl

theorem sortClauses_no_limit {options : FetchOptions} {c : QueryClause}
    (h : c ∈ sortClauses options) : c.isLimit = false := by
  rcases mem_sortClauses h with ⟨s, hc⟩ | hcur
  · rw [hc]
    rfl
  · rcases mem_cursorClauses hcur with ⟨v, hc⟩ | ⟨v, hc⟩ | ⟨v, hc⟩ | ⟨v, hc⟩ <;> rw [hc] <;> rfl

theorem limitClauses_no_cursor {options : FetchOptions} {c : QueryClause}
    (h : c ∈ limitClauses options) : c.isCursor = false := by
  rcases mem_limitClauses h with ⟨n, _, _, hc⟩
  rw [hc]
  rfl

theorem clauseMatches_sortClauses (d : Doc) {options : FetchOptions} {c : QueryClause}
    (h : c ∈ sortClauses options) : clauseMatches d c = true := by
  rcases mem_sortClauses h with ⟨s, hc⟩ | hcur
  · rw [hc]
    rfl
  · rcases mem_cursorClauses hcur with ⟨v, hc⟩ | ⟨v, hc⟩ | ⟨v, hc⟩ | ⟨v, hc⟩ <;> rw [hc] <;> rfl

theorem clauseMatches_limitClauses (d : Doc) {options : FetchOptions} {c : QueryClause}
    (h : c ∈ limitClauses options) : clauseMatches d c = true := by
  rcases mem_limitClauses h with ⟨n, _, _, hc⟩
  rw [hc]
  rfl

theorem filters_getD_of_falsy (options : FetchOptions)
    (h : filtersTruthy options = false) : options.filters.getD [] = [] := by
  unfold filtersTruthy at h
  cases hf : options.filters with
  | none => rfl
  | some fs =>
      rw [hf] at h
      cases fs with
      | nil => rfl
      | cons f rest => simp at h

theorem perm_all_eq {α : Type} {l1 l2 : List α} (p : α → Bool) (h : l1.Perm l2) :
    l1.all p = l2.all p := by
  induction h with
  | nil => rfl
  | cons x _ ih => simp [List.all_cons, ih]
  | swap x y l => simp [List.all_cons, Bool.and_left_comm]
  | trans _ _ ih1 ih2 => rw [ih1, ih2]

/-- C4: for options with no filters, no sorts and no limit supplied,
`applyOptions` yields no query override (returns `null`), so `fetch`
and `fetchSnapshots` run against the unmodified base collection
reference — an unfiltered, unsorted scan of the collection. -/
theorem applyOptions_none_of_no_options (options : FetchOptions) (ref : CollectionReference)
    (hf : options.filters = none) (hs : options.sorts = none) (hl : options.limit = none) :
    applyOptions options ref = none ∧
    fetchQuery options ref = ref.toQuery ∧
    fetchSnapshotsQuery options ref = ref.toQuery := by
  have ht : optionsTruthy options = false := by
    unfold optionsTruthy filtersTruthy sortsTruthy limitTruthy
    rw [hf, hs, hl]
    rfl
  have h2 := applyOptions_eq options ref
  rw [ht] at h2
  simp at h2
  refine ⟨h2, ?_, ?_⟩
  · unfold fetchQuery
    rw [h2]
    rfl
  · unfold fetchSnapshotsQuery
    rw [h2]
    rfl

/-- Witness for C4 at a concrete input: pagination cursors supplied but
no filters, sorts or limit; the override is `null` and the base
reference is used unmodified. -/
theorem applyOptions_none_of_no_options_witness :
    applyOptions { startAt := some (Value.vNum 12346), endBefore := some (Value.vNum 9) }
        ⟨"test-entities"⟩ = none ∧
    fetchQuery { startAt := some (Value.vNum 12346), endBefore := some (Value.vNum 9) }
        ⟨"test-entities"⟩ = CollectionReference.toQuery ⟨"test-entities"⟩ ∧
    fetchSnapshotsQuery { startAt := some (Value.vNum 12346), endBefore := some (Value.vNum 9) }
        ⟨"test-entities"⟩ = CollectionReference.toQuery ⟨"test-entities"⟩ :=
  applyOptions_none_of_no_options _ _ rfl rfl rfl

/-- C10: an empty filters array, an empty sorts array and a limit of
zero are treated identically to those fields being absent:
`applyOptions` returns `null`, exactly as for the empty options
object, so `fetch` and `fetchSnapshots` use the unmodified base
collection reference. -/
theorem applyOptions_empty_like_absent (options : FetchOptions) (ref : CollectionReference)
    (hf : options.filters = none ∨ options.filters = some [])
    (hs : options.sorts = none ∨ options.sorts = some [])
    (hl : options.limit = none ∨ options.limit = some 0) :
    applyOptions options ref = none ∧
    applyOptions options ref = applyOptions {} ref ∧
    fetchQuery options ref = ref.toQuery ∧
    fetchSnapshotsQuery options ref = ref.toQuery := by
  have ht : optionsTruthy options = false := by
    unfold optionsTruthy filtersTruthy sortsTruthy limitTruthy
    rcases hf with hf | hf <;> rcases hs with hs | hs <;> rcases hl with hl | hl <;>
      rw [hf, hs, hl] <;> rfl
  have h2 := applyOptions_eq options ref
  rw [ht] at h2
  simp at h2
  have hempty : applyOptions {} ref = none := rfl
  refine ⟨h2, by rw [h2, hempty], ?_, ?_⟩
  · unfold fetchQuery
    rw [h2]
    rfl
  · unfold fetchSnapshotsQuery
    rw [h2]
    rfl

/-- Witness for C10 at the concrete input
`{filters: [], sorts: [], limit: 0}`. -/
theorem applyOptions_empty_like_absent_witness :
    applyOptions { filters := some [], sorts := some [], limit := some 0 } ⟨"test-entities"⟩
      = none ∧
    applyOptions { filters := some [], sorts := some [], limit := some 0 } ⟨"test-entities"⟩
      = applyOptions {} ⟨"test-entities"⟩ ∧
    fetchQuery { filters := some [], sorts := some [], limit := some 0 } ⟨"test-entities"⟩
      = CollectionReference.toQuery ⟨"test-entities"⟩ ∧
    fetchSnapshotsQuery { filters := some [], sorts := some [], limit := some 0 }
        ⟨"test-entities"⟩ = CollectionReference.toQuery ⟨"test-entities"⟩ :=
  applyOptions_empty_like_absent _ _ (Or.inr rfl) (Or.inr rfl) (Or.inr rfl)

/-- C2 counterexample: a negative limit is JS-truthy, so for the
options `{limit: -1}` a `.limit(-1)` clause is attached to the built
query although `-1` is not a positive number — refuting "a limit
clause is attached if and only if the supplied limit is positive". -/
theorem limit_negative_attached :
    applyOptions { limit := some (-1) } ⟨"test-entities"⟩
      = some ⟨"test-entities", [QueryClause.limitC (-1)]⟩ ∧
    ¬ (0 : Int) < -1 := by
  constructor
  · rfl
  · decide

/-- C2 amended: `applyOptions` attaches a limit clause if and only if
the supplied limit is truthy — present and nonzero, not necessarily
positive — and when attached the limit clause is the last clause,
applied after all filters, sorts and pagination cursors. -/
theorem limit_attached_iff_truthy (options : FetchOptions) (ref : CollectionReference) :
    ((∃ q, applyOptions options ref = some q ∧ ∃ n, QueryClause.limitC n ∈ q.clauses) ↔
      (∃ n, options.limit = some n ∧ n ≠ 0)) ∧
    (∀ q n, applyOptions options ref = some q → QueryClause.limitC n ∈ q.clauses →
      options.limit = some n ∧
      q.clauses = (filterClauses options ++ sortClauses options) ++ [QueryClause.limitC n]) := by
  have key : ∀ q : Query, applyOptions options ref = some q →
      q = ⟨ref.path, builtClauses options⟩ := by
    intro q hq
    rw [applyOptions_eq] at hq
    by_cases ht : optionsTruthy options = true
    · rw [ht] at hq
      simp at hq
      exact hq.symm
    · rw [Bool.not_eq_true] at ht
      rw [ht] at hq
      simp at hq
  have memLimit : ∀ n, QueryClause.limitC n ∈ builtClauses options →
      options.limit = some n ∧ n ≠ 0 := by
    intro n hm
    unfold builtClauses at hm
    rcases List.mem_append.1 hm with hm' | hml
    · rcases List.mem_append.1 hm' with hmf | hms
      · have hl := filterClauses_no_limit hmf
        simp [QueryClause.isLimit] at hl
      · have hl := sortClauses_no_limit hms
        simp [QueryClause.isLimit] at hl
    · rcases mem_limitClauses hml with ⟨m, hlim, hm0, heq⟩
      obtain rfl : n = m := by injection heq
      exact ⟨hlim, hm0⟩
  have hlc : ∀ n, options.limit = some n → n ≠ 0 →
      limitClauses options = [QueryClause.limitC n] := by
    intro n hl hn
    unfold limitClauses
    simp only [hl]
    rw [if_pos hn]
  have htruth : ∀ n, options.limit = some n → n ≠ 0 → optionsTruthy options = true := by
    intro n hl hn
    unfold optionsTruthy limitTruthy
    simp only [hl]
    have hb : (n != 0) = true := bne_iff_ne.2 hn
    rw [hb]
    simp
  constructor
  · constructor
    · rintro ⟨q, hq, n, hmem⟩
      have hq' := key q hq
      subst hq'
      exact ⟨n, memLimit n hmem⟩
    · rintro ⟨n, hl, hn⟩
      refine ⟨⟨ref.path, builtClauses options⟩, ?_, n, ?_⟩
      · rw [applyOptions_eq, htruth n hl hn]
        rfl
      · show QueryClause.limitC n ∈ builtClauses options
        unfold builtClauses
        rw [hlc n hl hn]
        exact List.mem_append.2 (Or.inr (List.mem_singleton.2 rfl))
  · intro q n hq hmem
    have hq' := key q hq
    subst hq'
    have hm := memLimit n hmem
    refine ⟨hm.1, ?_⟩
    show builtClauses options = _
    unfold builtClauses
    rw [hlc n hm.1 hm.2]

/-- C1: when no sorts are present (absent or an empty array), no
pagination-cursor clause is ever attached by `applyOptions`, and
supplying any cursor values has no effect: the built query equals the
one built with all four cursors removed. -/
theorem cursors_ignored_without_sorts (options : FetchOptions) (ref : CollectionReference)
    (h : options.sorts = none ∨ options.sorts = some []) :
    applyOptions options ref =
      applyOptions
        { options with startAt := none, startAfter := none, endAt := none, endBefore := none }
        ref ∧
    ∀ q, applyOptions options ref = some q → ∀ c ∈ q.clauses, c.isCursor = false := by
  have hs : sortsTruthy options = false := by
    unfold sortsTruthy
    rcases h with h | h
    · rw [h]
    · rw [h]
      rfl
  have hs2 : sortsTruthy
      { options with startAt := none, startAfter := none, endAt := none, endBefore := none }
      = false := hs
  constructor
  · rw [applyOptions_eq, applyOptions_eq]
    have e2 : builtClauses
        { options with startAt := none, startAfter := none, endAt := none, endBefore := none }
        = builtClauses options := by
      unfold builtClauses
      rw [sortClauses_of_falsy _ hs, sortClauses_of_falsy _ hs2]
      rfl
    have e1 : optionsTruthy
        { options with startAt := none, startAfter := none, endAt := none, endBefore := none }
        = optionsTruthy options := rfl
    rw [e1, e2]
  · intro q hq c hc
    rw [applyOptions_eq] at hq
    by_cases ht : optionsTruthy options = true
    · rw [ht] at hq
      simp at hq
      rw [← hq] at hc
      have hc2 : c ∈ builtClauses options := hc
      unfold builtClauses at hc2
      rcases List.mem_append.1 hc2 with hc' | hcl
      · rcases List.mem_append.1 hc' with hcf | hcs
        · exact filterClauses_no_cursor hcf
        · rw [sortClauses_of_falsy _ hs] at hcs
          simp at hcs
      · exact limitClauses_no_cursor hcl
    · rw [Bool.not_eq_true] at ht
      rw [ht] at hq
      simp at hq

/-- Witness for C1 at a concrete input: sorts an empty array, all four
cursors supplied, one filter present; the built query equals the one
with the cursors removed and holds no cursor clause. -/
theorem cursors_ignored_without_sorts_witness :
    applyOptions
        { filters := some [⟨"name", FilterOp.eq, Value.vStr "Filtered"⟩],
          sorts := some [], startAt := some (Value.vNum 1),
          startAfter := some (Value.vNum 2), endAt := some (Value.vNum 3),
          endBefore := some (Value.vNum 4) } ⟨"test-entities"⟩ =
      applyOptions
        { filters := some [⟨"name", FilterOp.eq, Value.vStr "Filtered"⟩],
          sorts := some [], startAt := none, startAfter := none, endAt := none,
          endBefore := none } ⟨"test-entities"⟩ ∧
    ∀ q, applyOptions
        { filters := some [⟨"name", FilterOp.eq, Value.vStr "Filtered"⟩],
          sorts := some [], startAt := some (Value.vNum 1),
          startAfter := some (Value.vNum 2), endAt := some (Value.vNum 3),
          endBefore := some (Value.vNum 4) } ⟨"test-entities"⟩ = some q →
      ∀ c ∈ q.clauses, c.isCursor = false :=
  cursors_ignored_without_sorts _ _ (Or.inr rfl)

/-- C6: with at least one sort applied, the pagination cursors are
attached in the fixed sequence `startAt`, `startAfter`, `endAt`,
`endBefore`, each independently and exactly when its value is defined;
several cursor kinds may be supplied simultaneously — the layer
imposes no mutual-exclusion check. -/
theorem cursors_fixed_sequence (options : FetchOptions) (ref : CollectionReference)
    (ss : List SortSpecification) (hs : options.sorts = some ss) (hne : ss ≠ []) :
    ∃ q, applyOptions options ref = some q ∧
      q.clauses =
        (filterClauses options ++
          (ss.map SortSpecification.toClause ++
            (optClause options.startAt QueryClause.startAtC ++
             optClause options.startAfter QueryClause.startAfterC ++
             optClause options.endAt QueryClause.endAtC ++
             optClause options.endBefore QueryClause.endBeforeC))) ++
        limitClauses options := by
  have hst : sortsTruthy options = true := by
    unfold sortsTruthy
    rw [hs]
    cases ss with
    | nil => exact absurd rfl hne
    | cons a l => rfl
  have hopt : optionsTruthy options = true := by
    unfold optionsTruthy
    rw [hst]
    simp
  have hl : ss.length ≠ 0 := by
    cases ss with
    | nil => exact absurd rfl hne
    | cons a l => simp
  refine ⟨⟨ref.path, builtClauses options⟩, ?_, ?_⟩
  · rw [applyOptions_eq, hopt]
    rfl
  · show builtClauses options = _
    unfold builtClauses sortClauses cursorClauses
    simp only [hs]
    rw [if_pos hl]

/-- Witness for C6 at a concrete input: one ascending sort with all
four cursors, a filter and a limit supplied simultaneously; the clause
list shows the fixed cursor sequence. -/
theorem cursors_fixed_sequence_witness :
    ∃ q, applyOptions
        { filters := some [⟨"timeStamp", FilterOp.eq, Value.vNum 12345⟩],
          sorts := some [⟨"timeStamp", SortDirection.asc⟩],
          startAt := some (Value.vNum 12346), startAfter := some (Value.vNum 12345),
          endAt := some (Value.vNum 12348), endBefore := some (Value.vNum 12349),
          limit := some 2 } ⟨"test-entities"⟩ = some q ∧
      q.clauses =
        [QueryClause.whereC "timeStamp" FilterOp.eq (Value.vNum 12345),
         QueryClause.orderByC "timeStamp" SortDirection.asc,
         QueryClause.startAtC (Value.vNum 12346),
         QueryClause.startAfterC (Value.vNum 12345),
         QueryClause.endAtC (Value.vNum 12348),
         QueryClause.endBeforeC (Value.vNum 12349),
         QueryClause.limitC 2] := by
  obtain ⟨q, h1, h2⟩ := cursors_fixed_sequence
    { filters := some [⟨"timeStamp", FilterOp.eq, Value.vNum 12345⟩],
      sorts := some [⟨"timeStamp", SortDirection.asc⟩],
      startAt := some (Value.vNum 12346), startAfter := some (Value.vNum 12345),
      endAt := some (Value.vNum 12348), endBefore := some (Value.vNum 12349),
      limit := some 2 } ⟨"test-entities"⟩ [⟨"timeStamp", SortDirection.asc⟩] rfl (by simp)
  refine ⟨q, h1, ?_⟩
  rw [h2]
  rfl

theorem all_toClause_eq (d : Doc) (l : List FilterSpecification) :
    (l.map FilterSpecification.toClause).all (clauseMatches d) = l.all (evalFilter d) := by
  induction l with
  | nil => rfl
  | cons f rest ih =>
      simp only [List.map_cons, List.all_cons, ih]
      rfl

/-- C5: the match predicate of the query built by `applyOptions` is the
conjunction (logical AND) of the filter specifications, and any
permutation of the filter array yields the same match predicate on
every document: filter order never changes the logical result set. -/
theorem filters_conjunctive_order_independent (options : FetchOptions)
    (ref : CollectionReference) (fs' : List FilterSpecification) (d : Doc)
    (hperm : (options.filters.getD []).Perm fs') :
    queryMatches (fetchQuery options ref) d = (options.filters.getD []).all (evalFilter d) ∧
    (options.filters.getD []).all (evalFilter d) = fs'.all (evalFilter d) := by
  constructor
  · unfold fetchQuery
    rw [applyOptions_eq]
    by_cases ht : optionsTruthy options = true
    · rw [ht]
      have hred : (if (true : Bool) = true
            then some (⟨ref.path, builtClauses options⟩ : Query) else none)
          = some ⟨ref.path, builtClauses options⟩ := rfl
      rw [hred]
      show (builtClauses options).all (clauseMatches d) = _
      unfold builtClauses
      rw [List.all_append, List.all_append]
      have h2 : (sortClauses options).all (clauseMatches d) = true :=
        List.all_eq_true.2 (fun c hc => clauseMatches_sortClauses d hc)
      have h3 : (limitClauses options).all (clauseMatches d) = true :=
        List.all_eq_true.2 (fun c hc => clauseMatches_limitClauses d hc)
      rw [h2, h3, Bool.and_true, Bool.and_true]
      unfold filterClauses
      exact all_toClause_eq d (options.filters.getD [])
    · rw [Bool.not_eq_true] at ht
      rw [ht]
      have hf : filtersTruthy options = false := by
        unfold optionsTruthy at ht
        cases hb : filtersTruthy options
        · rfl
        · rw [hb] at ht
          simp at ht
      rw [filters_getD_of_falsy options hf]
      rfl
  · exact perm_all_eq (evalFilter d) hperm

/-- Witness for C5 at a concrete input: two filters and their
transposition give the same match predicate on a concrete document. -/
theorem filters_conjunctive_order_independent_witness :
    queryMatches
        (fetchQuery
          { filters := some [⟨"a", FilterOp.eq, Value.vNum 1⟩,
              ⟨"b", FilterOp.gt, Value.vNum 0⟩] } ⟨"c"⟩)
        [("a", Value.vNum 1), ("b", Value.vNum 2)]
      = ([⟨"a", FilterOp.eq, Value.vNum 1⟩, ⟨"b", FilterOp.gt, Value.vNum 0⟩] :
          List FilterSpecification).all
          (evalFilter [("a", Value.vNum 1), ("b", Value.vNum 2)]) ∧
    ([⟨"a", FilterOp.eq, Value.vNum 1⟩, ⟨"b", FilterOp.gt, Value.vNum 0⟩] :
        List FilterSpecification).all
        (evalFilter [("a", Value.vNum 1), ("b", Value.vNum 2)])
      = ([⟨"b", FilterOp.gt, Value.vNum 0⟩, ⟨"a", FilterOp.eq, Value.vNum 1⟩] :
          List FilterSpecification).all
          (evalFilter [("a", Value.vNum 1), ("b", Value.vNum 2)]) :=
  filters_conjunctive_order_independent _ _ _ _ (List.Perm.swap _ _ _)

/-- C3: `add` with a nonempty explicit id performs an upsert-style
write at exactly that identifier and returns the input merged with
exactly that identifier; `add` with the id omitted takes the client's
auto-identifier creation path and returns the input merged with the
generated, non-empty identifier. -/
theorem add_explicit_and_auto (item : Doc) (s : Store) (i : String) (hi : i ≠ "") :
    FirestoreRepo.add storeClient item (some i) s
      = Except.ok (mergeId item i, alSet s i item) ∧
    FirestoreRepo.add storeClient item none s
      = Except.ok (mergeId item (genId s), alSet s (genId s) item) ∧
    genId s ≠ "" := by
  refine ⟨?_, rfl, genId_ne_empty s⟩
  simp only [FirestoreRepo.add]
  rw [if_neg hi]
  rfl

/-- Witness for C3 at a concrete input (the explicit id `abc123` of
the repository's test suite, against the empty store). -/
theorem add_explicit_and_auto_witness :
    FirestoreRepo.add storeClient [("name", Value.vStr "Test Add")] (some "abc123") []
      = Except.ok (mergeId [("name", Value.vStr "Test Add")] "abc123",
          alSet [] "abc123" [("name", Value.vStr "Test Add")]) ∧
    FirestoreRepo.add storeClient [("name", Value.vStr "Test Add")] none []
      = Except.ok (mergeId [("name", Value.vStr "Test Add")] (genId []),
          alSet [] (genId []) [("name", Value.vStr "Test Add")]) ∧
    genId ([] : Store) ≠ "" :=
  add_explicit_and_auto _ _ _ (by decide)

/-- C9: `add` called with the empty string as the explicit id is
treated exactly like `add` with the id omitted — the guard `!id` tests
for falsiness — so the write takes the auto-identifier creation path
and the returned identifier is the generated one, never the supplied
empty string. -/
theorem add_empty_id_like_omitted {σ : Type} (client : FirestoreClient σ) (item : Doc)
    (s : σ) (st : Store) :
    FirestoreRepo.add client item (some "") s = FirestoreRepo.add client item none s ∧
    FirestoreRepo.add storeClient item (some "") st
      = Except.ok (mergeId item (genId st), alSet st (genId st) item) ∧
    genId st ≠ "" :=
  ⟨rfl, rfl, genId_ne_empty st⟩

/-- C7: `update` of a stored document merges only the supplied fields:
the call succeeds with the merged document written at the same
identifier, a subsequent point read returns the merged (not replaced)
document, every supplied field reads back with its supplied value, and
every stored field not present in the patch is unchanged. -/
theorem update_partial_merge (s : Store) (i : String) (stored patch : Doc)
    (hstored : alGet s i = some stored) (hid : idOf patch = some i)
    (hnd : (patch.map Prod.fst).Nodup) :
    FirestoreRepo.update storeClient patch s
      = Except.ok (alSet s i (mergeFields stored patch)) ∧
    alGet (alSet s i (mergeFields stored patch)) i = some (mergeFields stored patch) ∧
    (∀ k v, alGet patch k = some v → alGet (mergeFields stored patch) k = some v) ∧
    (∀ k, alGet patch k = none → alGet (mergeFields stored patch) k = alGet stored k) := by
  refine ⟨?_, alGet_alSet_self s i _, ?_, ?_⟩
  · simp only [FirestoreRepo.update, storeClient, hid, hstored]
  · intro k v h
    exact mergeFields_get_of_get patch stored k v hnd h
  · intro k h
    exact mergeFields_get_of_not_mem patch stored k ((alGet_eq_none_iff patch k).1 h)

/-- Witness for C7 at a concrete input: a stored document with two
fields, a patch supplying one changed field (plus the identifier); the
read-back shows the merged document. -/
theorem update_partial_merge_witness :
    FirestoreRepo.update storeClient
        [("id", Value.vStr "id1"), ("name", Value.vStr "Test Update Changed")]
        [("id1", [("name", Value.vStr "Test Update"), ("timeStamp", Value.vNum 12345)])]
      = Except.ok (alSet
          [("id1", [("name", Value.vStr "Test Update"), ("timeStamp", Value.vNum 12345)])]
          "id1"
          (mergeFields [("name", Value.vStr "Test Update"), ("timeStamp", Value.vNum 12345)]
            [("id", Value.vStr "id1"), ("name", Value.vStr "Test Update Changed")])) ∧
    alGet (alSet
        [("id1", [("name", Value.vStr "Test Update"), ("timeStamp", Value.vNum 12345)])]
        "id1"
        (mergeFields [("name", Value.vStr "Test Update"), ("timeStamp", Value.vNum 12345)]
          [("id", Value.vStr "id1"), ("name", Value.vStr "Test Update Changed")])) "id1"
      = some (mergeFields [("name", Value.vStr "Test Update"), ("timeStamp", Value.vNum 12345)]
          [("id", Value.vStr "id1"), ("name", Value.vStr "Test Update Changed")]) ∧
    (∀ k v, alGet [("id", Value.vStr "id1"), ("name", Value.vStr "Test Update Changed")] k
        = some v →
      alGet (mergeFields [("name", Value.vStr "Test Update"), ("timeStamp", Value.vNum 12345)]
        [("id", Value.vStr "id1"), ("name", Value.vStr "Test Update Changed")]) k = some v) ∧
    (∀ k, alGet [("id", Value.vStr "id1"), ("name", Value.vStr "Test Update Changed")] k
        = none →
      alGet (mergeFields [("name", Value.vStr "Test Update"), ("timeStamp", Value.vNum 12345)]
          [("id", Value.vStr "id1"), ("name", Value.vStr "Test Update Changed")]) k
        = alGet [("name", Value.vStr "Test Update"), ("timeStamp", Value.vNum 12345)] k) :=
  update_partial_merge _ _ _ _ (by decide) (by decide) (by decide)

/-- C8: every error the underlying client raises is propagated to the
caller unmodified — no retry, no local recovery, no translation into a
different error kind — for update, add (both identifier paths), delete
and the existence check; in particular `update` through the store
client fails when the input's identifier is absent or names no stored
document. -/
theorem errors_propagate {σ : Type} (client : FirestoreClient σ) (s : σ) (item : Doc)
    (id : String) (st : Store) (e : ClientError) :
    (FirestoreRepo.update client item s = Except.error e ↔
      client.docUpdate (idOf item) item s = Except.error e) ∧
    (FirestoreRepo.add client item none s = Except.error e ↔
      client.collectionAdd item s = Except.error e) ∧
    (id ≠ "" → (FirestoreRepo.add client item (some id) s = Except.error e ↔
      client.docSet id item s = Except.error e)) ∧
    (FirestoreRepo.delete client id s = Except.error e ↔
      client.docDelete id s = Except.error e) ∧
    (FirestoreRepo.existsDoc client id s = Except.error e ↔
      client.docGetExists id s = Except.error e) ∧
    (idOf item = none →
      FirestoreRepo.update storeClient item st = Except.error ClientError.invalidArgument) ∧
    (∀ j, idOf item = some j → alGet st j = none →
      FirestoreRepo.update storeClient item st = Except.error ClientError.notFound) := by
  refine ⟨Iff.rfl, ?_, ?_, Iff.rfl, Iff.rfl, ?_, ?_⟩
  · simp only [FirestoreRepo.add, FirestoreRepo.addAuto]
    cases hc : client.collectionAdd item s with
    | error e' => simp
    | ok p =>
        obtain ⟨d, s'⟩ := p
        simp
  · intro hid
    simp only [FirestoreRepo.add]
    rw [if_neg hid]
    cases hc : client.docSet id item s with
    | error e' => simp
    | ok s' => simp
  · intro h
    simp only [FirestoreRepo.update, storeClient, h]
  · intro j hj hn
    simp only [FirestoreRepo.update, storeClient, hj, hn]
